import Mathlib

/-
Verification of the nbodykit repository glue files.

The repository consists of a Travis CI configuration (`.travis.yml`, with the
documentation environment manifest `environment.yml` attached), and the
documentation notebook `docs/source/mesh/overview.ipynb`, which demonstrates
the `pmesh` mesh/field abstraction (`RealField` / `ComplexField`, `r2c` / `c2r`).

The CI configuration and manifests are embedded literally.  The mesh/field
transform itself is not implemented in the repository (it lives in the external
`pmesh` library), so it is modelled from the specification: an exact
three-dimensional discrete Fourier transform pair over `ℂ`, with the forward
real-to-complex transform truncated along the z axis by conjugate symmetry.
-/

open Complex Finset

namespace Nbodykit

/-! ## Embedding of `.travis.yml` and `environment.yml` -/

namespace Travis

/-- Python versions of the CI build matrix (.travis.yml, `python:`). -/
def pythonVersions : List String := ["2.7", "3.6", "3.7"]

/-- Value of `NUMPY_VERSION` in the single global `env:` entry (.travis.yml line 8). -/
def numpyVersionValue : String := "1.15"

/-- The global environment settings list (.travis.yml, `env:`). -/
def envSettings : List String := ["NUMPY_VERSION=" ++ numpyVersionValue]

/-- Context of one Travis build: whether it runs on a git tag, and the value of
the `TRAVIS_PYTHON_VERSION` variable. -/
structure BuildCtx where
  isTagBuild : Bool
  travisPythonVersion : String

/-- The `deploy:` section of `.travis.yml`: provider, distributions, user, and
the `on:` gating (tags flag and the shell condition on the interpreter). -/
structure DeployConfig where
  provider : String
  distributions : String
  user : String
  onTags : Bool
  onCondition : BuildCtx → Bool

/-- Literal transcription of the `deploy:` section (.travis.yml lines 55-63).
The `on.condition` line tests `$TRAVIS_PYTHON_VERSION = "2.7"`. -/
def deployConfig : DeployConfig where
  provider := "pypi"
  distributions := "sdist"
  user := "nickhand"
  onTags := true
  onCondition := fun ctx => ctx.travisPythonVersion == "2.7"

/-- Modelled from the spec: Travis runs a deploy step exactly when every `on:`
gate holds — when `on.tags` is set the build must be a tag build, and the
`on.condition` shell test must succeed. -/
def deployRuns (cfg : DeployConfig) (ctx : BuildCtx) : Bool :=
  (!cfg.onTags || ctx.isTagBuild) && cfg.onCondition ctx

/-- The command run inside the `--mpirun=...` flag of the CI test invocation. -/
def mpirunCommand : String := "mpirun -n 4"

/-- The MPI process count requested by `mpirunCommand`. -/
def mpiProcessCount : Nat := 4

/-- The verbosity flag of the CI test invocation. -/
def verbosityFlag : String := "-v"

/-- The coverage-collection flag of the CI test invocation. -/
def coverageFlag : String := "--with-coverage"

/-- The distributed-execution flag of the CI test invocation. -/
def mpirunFlag : String := "--mpirun=\x27" ++ mpirunCommand ++ "\x27"

/-- Literal transcription of the `script:` section (.travis.yml lines 49-50). -/
def script : List String :=
  ["python run-tests.py -v --mpirun=\x27mpirun -n 4\x27 --with-coverage"]

/-- Base dependency manifest file installed by the CI `install:` step. -/
def baseRequirementsFile : String := "requirements.txt"

/-- Extras dependency manifest file installed by the CI `install:` step. -/
def extrasRequirementsFile : String := "requirements-extras.txt"

/-- Literal transcription of the `install:` section (.travis.yml lines 24-47). -/
def installCmds : List String :=
  [ "conda create --yes -n test python=$TRAVIS_PYTHON_VERSION"
  , "source activate test"
  , "conda config --add channels astropy"
  , "conda config --add channels bccp"
  , "conda install --yes numpy=$NUMPY_VERSION"
  , "echo \x22numpy $NUMPY_VERSION.*\x22 >> $CONDA_PREFIX/conda-meta/pinned"
  , "conda install --yes --file requirements.txt"
  , "conda install --yes --file requirements-extras.txt"
  , "pip install coveralls"
  , "pip install .[extras]" ]

/-- Name of the documentation conda environment (environment.yml, `name:`). -/
def docsEnvName : String := "nbodykit-docs"

/-- Conda dependency entries of `environment.yml` (`dependencies:`). -/
def docsCondaDependencies : List String :=
  [ "python=3.6", "numpy", "scipy", "astropy", "mpi4py", "runtests", "pmesh"
  , "kdcount", "mpsort", "bigfile", "pandas", "dask", "cachey", "sympy"
  , "numexpr", "corrfunc", "mcfit", "classylss", "h5py", "halotools"
  , "fitsio", "sphinx", "IPython", "pip" ]

/-- Pip dependency entries of `environment.yml` (`pip:`). -/
def docsPipDependencies : List String :=
  ["nbsphinx", "sphinx_bootstrap_theme", "sphinx-issues", "numpydoc"]

/-- The pin separator character of a conda dependency entry (ASCII 61). -/
def eqChar : Char := Char.ofNat 61

/-- Package name of a dependency entry: everything before the pin separator. -/
def depName (s : String) : String :=
  (s.toList.takeWhile (fun c => c ≠ eqChar)).asString

/-- Pinned version of a dependency entry, when present: everything after the
pin separator. -/
def depVersion (s : String) : Option String :=
  match s.toList.dropWhile (fun c => c ≠ eqChar) with
  | [] => none
  | _ :: v => some v.asString

/-- A well-formed dependency entry is a nonempty package name, optionally
followed by a single pin separator and a nonempty version. -/
def isValidDepEntry (s : String) : Bool :=
  !(depName s).isEmpty &&
    (match depVersion s with
     | none => true
     | some v => !v.isEmpty && v.toList.all (fun c => c ≠ eqChar))

/-- Look up the pinned version of a named package in a dependency list. -/
def lookupPin (deps : List String) (name : String) : Option String :=
  (deps.filterMap (fun e => if depName e == name then depVersion e else none)).head?

/-- One job of the Travis build matrix: the matrix is the product of the
`python:` list and the (single-entry) `env:` list. -/
structure JobEnv where
  travisPythonVersion : String
  numpyVersionVar : String
deriving DecidableEq

/-- The Travis build matrix: every python version paired with the single
`NUMPY_VERSION=1.15` environment entry. -/
def buildMatrix : List JobEnv :=
  pythonVersions.map (fun p => { travisPythonVersion := p, numpyVersionVar := numpyVersionValue })

/-- The kinds of command appearing in the `install:` section that matter for
the state of the conda environment. -/
inductive InstallStep
  | shellCmd (cmd : String)
  | condaInstallNumpy (v : String)
  | appendPin (line : String)
  | condaInstallFile (file : String)
deriving DecidableEq

/-- The `install:` section of one matrix job, with the `NUMPY_VERSION` and
`TRAVIS_PYTHON_VERSION` variables substituted from the job environment
(.travis.yml lines 24-47). -/
def installPlan (env : JobEnv) : List InstallStep :=
  [ .shellCmd ("conda create --yes -n test python=" ++ env.travisPythonVersion)
  , .shellCmd "source activate test"
  , .shellCmd "conda config --add channels astropy"
  , .shellCmd "conda config --add channels bccp"
  , .condaInstallNumpy env.numpyVersionVar
  , .appendPin ("numpy " ++ env.numpyVersionVar ++ ".*")
  , .condaInstallFile "requirements.txt"
  , .condaInstallFile "requirements-extras.txt"
  , .shellCmd "pip install coveralls"
  , .shellCmd "pip install .[extras]" ]

/-- State of the conda environment while the `install:` section runs: the
installed numpy version (`none` when unknown) and the lines of the
`conda-meta/pinned` file. -/
structure CondaState where
  numpyInstalled : Option String
  pinnedFile : List String
deriving DecidableEq

/-- State before the `install:` section starts. -/
def initialState : CondaState := { numpyInstalled := none, pinnedFile := [] }

/-- Does a character list start with the given pattern? -/
def listStarts : List Char → List Char → Bool
  | [], _ => true
  | _ :: _, [] => false
  | a :: as, b :: bs => a == b && listStarts as bs

/-- Does the pinned file hold a pin line for numpy? -/
def numpyPinnedIn (pins : List String) : Bool :=
  pins.any (fun l => listStarts "numpy ".toList l.toList)

/-- Modelled from the spec: effect of one install command on the conda state.
`conda install numpy=v` sets the installed numpy version; `echo ... >> pinned`
appends a pin line; installing from a requirements file honors the pinned
file — it cannot move a pinned numpy, while with no pin in place it may move
numpy to an unknown version. -/
def applyStep (s : CondaState) : InstallStep → CondaState
  | .shellCmd _ => s
  | .condaInstallNumpy v => { s with numpyInstalled := some v }
  | .appendPin line => { s with pinnedFile := s.pinnedFile ++ [line] }
  | .condaInstallFile _ =>
      if numpyPinnedIn s.pinnedFile then s else { s with numpyInstalled := none }

/-- Run a list of install commands from a given state. -/
def runSteps (s : CondaState) : List InstallStep → CondaState
  | [] => s
  | st :: rest => runSteps (applyStep s st) rest

/-- Classification of the files of the repository. -/
inductive FileKind
  | ciConfig
  | envManifest
  | docsNotebook
  | implementationSource
  | testSource
deriving DecidableEq

/-- One file of the repository with its classification. -/
structure RepoFile where
  path : String
  kind : FileKind

/-- The files of the repository. -/
def repoFiles : List RepoFile :=
  [ { path := ".travis.yml", kind := .ciConfig }
  , { path := "environment.yml", kind := .envManifest }
  , { path := "docs/source/mesh/overview.ipynb", kind := .docsNotebook } ]

/-- Is the kind CI configuration, environment manifest, or documentation? -/
def isGlueKind : FileKind → Bool
  | .ciConfig => true
  | .envManifest => true
  | .docsNotebook => true
  | _ => false

/-- Is the kind implementation or test source code? -/
def isCodeKind : FileKind → Bool
  | .implementationSource => true
  | .testSource => true
  | _ => false

/-- One invocation of a forward or inverse FFT in the documentation notebook,
with the module defining the invoked class. -/
structure NotebookFFTCall where
  definingModule : String
  method : String

/-- The FFT round-trip demonstrations of `overview.ipynb`: `rfield.r2c()` and
`cfield.c2r()`, on objects imported `from pmesh.pm`. -/
def notebookFFTCalls : List NotebookFFTCall :=
  [ { definingModule := "pmesh.pm", method := "r2c" }
  , { definingModule := "pmesh.pm", method := "c2r" } ]

/-- Is the module owned by this repository (the `nbodykit` package)? -/
def moduleIsRepoOwned (m : String) : Bool := listStarts "nbodykit".toList m.toList

/-- Is the module part of the external `pmesh` library? -/
def moduleIsPmesh (m : String) : Bool := listStarts "pmesh".toList m.toList

end Travis

/-! ## Model of the pmesh mesh/field abstraction

Modelled from the spec: the `pmesh` library is not part of this repository, so
the forward real-to-complex transform `r2c` and the inverse transform `c2r`
are modelled as an exact three-dimensional discrete Fourier transform pair
over `ℂ`, with the forward transform truncated along the z axis by conjugate
symmetry (storing `Nmesh / 2 + 1` of the `Nmesh` complex modes), and with the
`pmesh` normalization in which the `k = 0` mode is the mean of the
configuration-space field. -/

/-- Index set of a configuration-space field on an `N`-per-side 3D mesh. -/
abbrev RIdx (N : ℕ) := Fin N × Fin N × Fin N

/-- Index set of a Fourier-space field: full along x and y, truncated to
`N / 2 + 1` modes along z by conjugate symmetry. -/
abbrev CIdx (N : ℕ) := Fin N × Fin N × Fin (N / 2 + 1)

/-- Modelled from the spec: a `pmesh.pm.RealField`, a real-valued array over
the full `N ^ 3` mesh. -/
abbrev RealFieldT (N : ℕ) := RIdx N → ℝ

/-- Modelled from the spec: a `pmesh.pm.ComplexField`, a complex-valued array
truncated along the z axis. -/
abbrev ComplexFieldT (N : ℕ) := CIdx N → ℂ

/-- The primitive `N`-th root of unity used by the discrete Fourier transform. -/
noncomputable def omegaN (N : ℕ) : ℂ := Complex.exp (2 * Real.pi * Complex.I / N)

/-- Integer dot product of a wavevector and a grid coordinate. -/
def dotZ {N : ℕ} (k x : RIdx N) : ℤ :=
  (k.1 : ℤ) * (x.1 : ℤ) + (k.2.1 : ℤ) * (x.2.1 : ℤ) + (k.2.2 : ℤ) * (x.2.2 : ℤ)

/-- Full-spectrum forward DFT coefficient at wavevector `k`, with the `pmesh`
normalization `1 / N ^ 3` so that the zero mode is the field mean. -/
noncomputable def dftCoeff {N : ℕ} (f : RealFieldT N) (k : RIdx N) : ℂ :=
  ((N : ℂ) ^ 3)⁻¹ * ∑ x : RIdx N, (f x : ℂ) * omegaN N ^ (-dotZ k x)

/-- Modelled from the spec: the forward real-to-complex transform
`RealField.r2c`, keeping only the modes with `k_z ≤ N / 2`. -/
noncomputable def r2c {N : ℕ} (f : RealFieldT N) : ComplexFieldT N :=
  fun k =>
    dftCoeff f
      (k.1, k.2.1, ⟨k.2.2.val, by have h1 := k.2.2.isLt; have h2 := k.1.pos; omega⟩)

/-- The mirror wavevector component `-k mod N`. -/
def mirror {N : ℕ} (k : Fin N) : Fin N :=
  ⟨(N - k.val) % N, Nat.mod_lt _ k.pos⟩

/-- Modelled from the spec: reconstruction of the full spectrum from the
truncated Fourier-space field, using conjugate symmetry
`c(-k) = conj (c k)` for the modes with `k_z > N / 2`. -/
noncomputable def fullSpectrum {N : ℕ} (c : ComplexFieldT N) (k : RIdx N) : ℂ :=
  if h : k.2.2.val ≤ N / 2 then
    c (k.1, k.2.1, ⟨k.2.2.val, by omega⟩)
  else
    (starRingEnd ℂ)
      (c (mirror k.1, mirror k.2.1, ⟨N - k.2.2.val, by have := k.2.2.isLt; omega⟩))

/-- The inverse transform sum: the full inverse DFT applied to the spectrum
reconstructed from the truncated field. -/
noncomputable def invSum {N : ℕ} (c : ComplexFieldT N) (x : RIdx N) : ℂ :=
  ∑ k : RIdx N, fullSpectrum c k * omegaN N ^ dotZ k x

/-- Modelled from the spec: the inverse complex-to-real transform
`ComplexField.c2r`, returning a configuration-space (real-valued) field. -/
noncomputable def c2r {N : ℕ} (c : ComplexFieldT N) : RealFieldT N :=
  fun x => (invSum c x).re

/-- The constant unity field of the notebook example (`rfield[...] = 1.0`). -/
def unityField (N : ℕ) : RealFieldT N := fun _ => 1

/-- Mean of the values of a configuration-space field (`rfield.value.mean()`). -/
noncomputable def fieldMean {N : ℕ} (f : RealFieldT N) : ℝ :=
  (∑ x : RIdx N, f x) / (Fintype.card (RIdx N))

/-- Per-axis sizes of the index set of a configuration-space field: the shape
of a `RealField` on an `N`-per-side mesh (the three factors of `RIdx N`). -/
def rshape (N : ℕ) : ℕ × ℕ × ℕ :=
  (Fintype.card (Fin N), Fintype.card (Fin N), Fintype.card (Fin N))

/-- Per-axis sizes of the index set of a Fourier-space field: the shape of the
`ComplexField` produced by `r2c` (the three factors of `CIdx N`). -/
def cshape (N : ℕ) : ℕ × ℕ × ℕ :=
  (Fintype.card (Fin N), Fintype.card (Fin N), Fintype.card (Fin (N / 2 + 1)))

/-! ## Properties of the root of unity -/

lemma omegaN_ne_zero (N : ℕ) : omegaN N ≠ 0 := Complex.exp_ne_zero _

lemma omegaN_zpow_eq_one_iff {N : ℕ} (hN : N ≠ 0) (m : ℤ) :
    omegaN N ^ m = 1 ↔ (N : ℤ) ∣ m :=
  (Complex.isPrimitiveRoot_exp N hN).zpow_eq_one_iff_dvd m

lemma omegaN_zpow_congr {N : ℕ} (hN : N ≠ 0) {a b : ℤ} (h : (N : ℤ) ∣ a - b) :
    omegaN N ^ a = omegaN N ^ b := by
  have h1 : omegaN N ^ (a - b) = 1 := (omegaN_zpow_eq_one_iff hN _).mpr h
  have h2 : a = (a - b) + b := by ring
  rw [h2, zpow_add₀ (omegaN_ne_zero N), h1, one_mul]

lemma conj_omegaN (N : ℕ) : (starRingEnd ℂ) (omegaN N) = (omegaN N)⁻¹ := by
  rw [omegaN, ← Complex.exp_conj, ← Complex.exp_neg]
  congr 1
  rw [map_div₀, map_mul, map_mul, Complex.conj_I]
  simp [Complex.conj_ofReal, map_ofNat]
  ring

lemma conj_omegaN_zpow (N : ℕ) (m : ℤ) :
    (starRingEnd ℂ) (omegaN N ^ m) = omegaN N ^ (-m) := by
  rw [map_zpow₀, conj_omegaN, inv_zpow, ← zpow_neg]

lemma sum_omegaN_zpow {N : ℕ} (hN : N ≠ 0) (d : ℤ) :
    ∑ k : Fin N, omegaN N ^ ((k : ℤ) * d) = if (N : ℤ) ∣ d then (N : ℂ) else 0 := by
  by_cases hd : (N : ℤ) ∣ d
  · rw [if_pos hd]
    have h1 : ∀ k : Fin N, omegaN N ^ ((k : ℤ) * d) = 1 := fun k =>
      (omegaN_zpow_eq_one_iff hN _).mpr (hd.mul_left _)
    rw [Finset.sum_congr rfl (fun k _ => h1 k)]
    simp
  · rw [if_neg hd]
    have hz1 : omegaN N ^ d ≠ 1 := fun h => hd ((omegaN_zpow_eq_one_iff hN d).mp h)
    have hfact : ∀ k : Fin N, omegaN N ^ ((k : ℤ) * d) = (omegaN N ^ d) ^ (k : ℕ) := by
      intro k
      rw [mul_comm, zpow_mul, zpow_natCast]
    rw [Finset.sum_congr rfl (fun k _ => hfact k)]
    rw [Fin.sum_univ_eq_sum_range (fun i => (omegaN N ^ d) ^ i) N]
    rw [geom_sum_eq hz1]
    have hpow : (omegaN N ^ d) ^ N = 1 := by
      rw [← zpow_natCast (omegaN N ^ d) N, ← zpow_mul, mul_comm]
      exact (omegaN_zpow_eq_one_iff hN _).mpr (Dvd.intro _ rfl)
    rw [hpow]
    simp

lemma natCast_dvd_sub_iff {N : ℕ} (x y : Fin N) :
    (N : ℤ) ∣ ((x : ℤ) - (y : ℤ)) ↔ x = y := by
  constructor
  · intro h
    have hx := x.isLt
    have hy := y.isLt
    have h0 : ((x : ℤ) - (y : ℤ)) = 0 := by
      refine Int.eq_zero_of_abs_lt_dvd h ?_
      rw [abs_lt]
      omega
    exact Fin.ext (by omega)
  · rintro rfl
    simp

lemma mirror_add_dvd {N : ℕ} (k : Fin N) :
    (N : ℤ) ∣ ((mirror k : Fin N) : ℤ) + (k : ℤ) := by
  have hk := k.isLt
  rcases Nat.eq_zero_or_pos k.val with h0 | hpos
  · have : (mirror k).val = 0 := by simp [mirror, h0]
    rw [show ((mirror k : Fin N) : ℤ) = ((mirror k).val : ℤ) from rfl, this, h0]
    simp
  · have hlt : N - k.val < N := by omega
    have hval : (mirror k).val = N - k.val := by
      simp [mirror, Nat.mod_eq_of_lt hlt]
    refine ⟨1, ?_⟩
    rw [show ((mirror k : Fin N) : ℤ) = ((mirror k).val : ℤ) from rfl, hval]
    omega

/-! ## Conjugate symmetry of the forward transform -/

lemma conj_dftCoeff {N : ℕ} (hN : N ≠ 0) (f : RealFieldT N) (k : RIdx N) :
    (starRingEnd ℂ) (dftCoeff f (mirror k.1, mirror k.2.1, mirror k.2.2)) = dftCoeff f k := by
  unfold dftCoeff
  rw [map_mul, map_inv₀, map_pow, Complex.conj_natCast, map_sum]
  congr 1
  refine Finset.sum_congr rfl (fun x _ => ?_)
  rw [map_mul, Complex.conj_ofReal, conj_omegaN_zpow]
  congr 1
  apply omegaN_zpow_congr hN
  have h1 := mirror_add_dvd k.1
  have h2 := mirror_add_dvd k.2.1
  have h3 := mirror_add_dvd k.2.2
  have hsum : - -dotZ (mirror k.1, mirror k.2.1, mirror k.2.2) x - -dotZ k x
      = (((mirror k.1 : Fin N) : ℤ) + (k.1 : ℤ)) * (x.1 : ℤ)
        + (((mirror k.2.1 : Fin N) : ℤ) + (k.2.1 : ℤ)) * (x.2.1 : ℤ)
        + (((mirror k.2.2 : Fin N) : ℤ) + (k.2.2 : ℤ)) * (x.2.2 : ℤ) := by
    simp only [dotZ]
    ring
  rw [hsum]
  exact dvd_add (dvd_add (h1.mul_right _) (h2.mul_right _)) (h3.mul_right _)

lemma fullSpectrum_r2c {N : ℕ} (f : RealFieldT N) (k : RIdx N) :
    fullSpectrum (r2c f) k = dftCoeff f k := by
  have hN : N ≠ 0 := k.1.pos.ne'
  unfold fullSpectrum
  split_ifs with h
  · rfl
  · refine Eq.trans ?_ (conj_dftCoeff hN f k)
    congr 1
    show dftCoeff f _ = dftCoeff f (mirror k.1, mirror k.2.1, mirror k.2.2)
    congr 1
    refine Prod.ext rfl (Prod.ext rfl (Fin.ext ?_))
    show N - k.2.2.val = (N - k.2.2.val) % N
    have hlt : N - k.2.2.val < N := by omega
    rw [Nat.mod_eq_of_lt hlt]

/-! ## Inversion of the transform pair -/

lemma sum_prod3 {N : ℕ} (g1 g2 g3 : Fin N → ℂ) :
    (∑ a : Fin N, g1 a) * (∑ b : Fin N, g2 b) * (∑ c : Fin N, g3 c)
      = ∑ k : RIdx N, g1 k.1 * g2 k.2.1 * g3 k.2.2 := by
  calc
    (∑ a : Fin N, g1 a) * (∑ b : Fin N, g2 b) * (∑ c : Fin N, g3 c)
        = (∑ a : Fin N, g1 a) * ((∑ b : Fin N, g2 b) * (∑ c : Fin N, g3 c)) := by
      ring
    _ = (∑ a : Fin N, g1 a) * (∑ b : Fin N, ∑ c : Fin N, g2 b * g3 c) := by
      rw [Fintype.sum_mul_sum]
    _ = ∑ a : Fin N, ∑ b : Fin N, ∑ c : Fin N, g1 a * (g2 b * g3 c) := by
      rw [Fintype.sum_mul_sum]
      exact Finset.sum_congr rfl fun a _ => Finset.sum_congr rfl fun b _ =>
        Finset.mul_sum _ _ _
    _ = ∑ a : Fin N, ∑ b : Fin N, ∑ c : Fin N, g1 a * g2 b * g3 c := by
      simp only [mul_assoc]
    _ = ∑ k : RIdx N, g1 k.1 * g2 k.2.1 * g3 k.2.2 := by
      simp only [Fintype.sum_prod_type]

lemma sum_omegaN_dot {N : ℕ} (hN : N ≠ 0) (x y : RIdx N) :
    ∑ k : RIdx N, omegaN N ^ (dotZ k x - dotZ k y)
      = if y = x then ((N : ℂ) ^ 3) else 0 := by
  have hsplit : ∀ k : RIdx N,
      omegaN N ^ (dotZ k x - dotZ k y)
        = omegaN N ^ ((k.1 : ℤ) * ((x.1 : ℤ) - (y.1 : ℤ)))
          * omegaN N ^ ((k.2.1 : ℤ) * ((x.2.1 : ℤ) - (y.2.1 : ℤ)))
          * omegaN N ^ ((k.2.2 : ℤ) * ((x.2.2 : ℤ) - (y.2.2 : ℤ))) := by
    intro k
    rw [← zpow_add₀ (omegaN_ne_zero N), ← zpow_add₀ (omegaN_ne_zero N)]
    congr 1
    simp only [dotZ]
    ring
  rw [Finset.sum_congr rfl (fun k _ => hsplit k),
    ← sum_prod3 (fun a => omegaN N ^ ((a : ℤ) * ((x.1 : ℤ) - (y.1 : ℤ))))
      (fun b => omegaN N ^ ((b : ℤ) * ((x.2.1 : ℤ) - (y.2.1 : ℤ))))
      (fun c => omegaN N ^ ((c : ℤ) * ((x.2.2 : ℤ) - (y.2.2 : ℤ)))),
    sum_omegaN_zpow hN, sum_omegaN_zpow hN, sum_omegaN_zpow hN]
  by_cases hxy : y = x
  · subst hxy
    rw [if_pos rfl, if_pos (by simp : (N : ℤ) ∣ ((y.1 : ℤ) - (y.1 : ℤ))),
      if_pos (by simp : (N : ℤ) ∣ ((y.2.1 : ℤ) - (y.2.1 : ℤ))),
      if_pos (by simp : (N : ℤ) ∣ ((y.2.2 : ℤ) - (y.2.2 : ℤ)))]
    ring
  · rw [if_neg hxy]
    have hcomp : ¬(y.1 = x.1 ∧ y.2.1 = x.2.1 ∧ y.2.2 = x.2.2) := by
      intro ⟨e1, e2, e3⟩
      exact hxy (Prod.ext e1 (Prod.ext e2 e3))
    by_cases h1 : (N : ℤ) ∣ ((x.1 : ℤ) - (y.1 : ℤ))
    · by_cases h2 : (N : ℤ) ∣ ((x.2.1 : ℤ) - (y.2.1 : ℤ))
      · have h3 : ¬(N : ℤ) ∣ ((x.2.2 : ℤ) - (y.2.2 : ℤ)) := by
          intro h3
          exact hcomp ⟨((natCast_dvd_sub_iff x.1 y.1).mp h1).symm,
            ((natCast_dvd_sub_iff x.2.1 y.2.1).mp h2).symm,
            ((natCast_dvd_sub_iff x.2.2 y.2.2).mp h3).symm⟩
        rw [if_neg h3]
        ring
      · rw [if_neg h2]
        ring
    · rw [if_neg h1]
      ring

lemma invSum_dftCoeff {N : ℕ} (hN : N ≠ 0) (f : RealFieldT N) (x : RIdx N) :
    ∑ k : RIdx N, dftCoeff f k * omegaN N ^ dotZ k x = (f x : ℂ) := by
  have hω := omegaN_ne_zero N
  have hNC : (N : ℂ) ≠ 0 := Nat.cast_ne_zero.mpr hN
  calc
    ∑ k : RIdx N, dftCoeff f k * omegaN N ^ dotZ k x
        = ((N : ℂ) ^ 3)⁻¹
            * ∑ k : RIdx N, ∑ y : RIdx N, (f y : ℂ) * omegaN N ^ (dotZ k x - dotZ k y) := by
      rw [Finset.mul_sum]
      refine Finset.sum_congr rfl fun k _ => ?_
      unfold dftCoeff
      rw [mul_assoc]
      congr 1
      rw [Finset.sum_mul]
      refine Finset.sum_congr rfl fun y _ => ?_
      rw [mul_assoc]
      congr 1
      rw [← zpow_add₀ hω]
      congr 1
      ring
    _ = ((N : ℂ) ^ 3)⁻¹
            * ∑ y : RIdx N, (f y : ℂ) * ∑ k : RIdx N, omegaN N ^ (dotZ k x - dotZ k y) := by
      congr 1
      rw [Finset.sum_comm]
      exact Finset.sum_congr rfl fun y _ => (Finset.mul_sum _ _ _).symm
    _ = ((N : ℂ) ^ 3)⁻¹ * ∑ y : RIdx N, (f y : ℂ) * (if y = x then ((N : ℂ) ^ 3) else 0) := by
      congr 1
      exact Finset.sum_congr rfl fun y _ => by rw [sum_omegaN_dot hN]
    _ = (f x : ℂ) := by
      rw [Finset.sum_congr rfl (fun y _ => mul_ite_zero ..)]
      rw [Fintype.sum_ite_eq' x (fun y => (f y : ℂ) * (N : ℂ) ^ 3)]
      field_simp

/-! ## Round trip, zero mode, mean and shape lemmas -/

lemma c2r_r2c_eq {N : ℕ} (f : RealFieldT N) (x : RIdx N) : c2r (r2c f) x = f x := by
  have hN : N ≠ 0 := x.1.pos.ne'
  show (invSum (r2c f) x).re = f x
  unfold invSum
  rw [Finset.sum_congr rfl (fun k _ => by rw [fullSpectrum_r2c])]
  rw [invSum_dftCoeff hN f x]
  exact Complex.ofReal_re _

lemma card_RIdx (N : ℕ) : Fintype.card (RIdx N) = N ^ 3 := by
  simp only [Fintype.card_prod, Fintype.card_fin]
  ring

lemma fieldMean_unity8 : fieldMean (unityField 8) = 1 := by
  unfold fieldMean unityField
  rw [Finset.sum_const, Finset.card_univ, nsmul_eq_mul, mul_one, card_RIdx]
  norm_num

lemma dftCoeff_valZero {N : ℕ} (f : RealFieldT N) (k : RIdx N)
    (h1 : (k.1 : ℕ) = 0) (h2 : (k.2.1 : ℕ) = 0) (h3 : (k.2.2 : ℕ) = 0) :
    dftCoeff f k = (∑ x : RIdx N, (f x : ℂ)) / (N : ℂ) ^ 3 := by
  unfold dftCoeff
  have hdot : ∀ x : RIdx N, dotZ k x = 0 := by
    intro x
    simp [dotZ, h1, h2, h3]
  rw [Finset.sum_congr rfl (fun x _ => by rw [hdot x, neg_zero, zpow_zero, mul_one])]
  ring

lemma r2c_zero_mode {N : ℕ} [NeZero N] (f : RealFieldT N) :
    r2c f (0, 0, 0) = ((fieldMean f : ℝ) : ℂ) := by
  refine Eq.trans (dftCoeff_valZero f _ ?_ ?_ ?_) ?_
  · simp
  · simp
  · simp
  unfold fieldMean
  rw [Complex.ofReal_div, Complex.ofReal_sum, card_RIdx]
  push_cast
  ring

/-! ## Claim theorems -/

/-- C1: applying the forward transform `r2c` followed by the inverse `c2r`
restores every configuration-space field exactly (in this exact-arithmetic
model of the transform pair, hence numerically consistent to any floating-point
tolerance), and in the notebook's concrete example the unity `RealField` on the
`8 ^ 3` mesh has mean `1` before the transform and mean `1` again after the
`r2c`/`c2r` round trip. -/
theorem r2c_c2r_round_trip :
    (∀ (N : ℕ) (f : RealFieldT N) (x : RIdx N), c2r (r2c f) x = f x)
    ∧ fieldMean (unityField 8) = 1
    ∧ fieldMean (c2r (r2c (unityField 8))) = 1 := by
  refine ⟨fun N f x => c2r_r2c_eq f x, fieldMean_unity8, ?_⟩
  unfold fieldMean
  rw [Finset.sum_congr rfl (fun x _ => c2r_r2c_eq (unityField 8) x)]
  exact fieldMean_unity8

/-- C2: the Fourier-space field produced by `r2c` from a real field on an
`N`-per-side mesh is indexed by `CIdx N`, of shape `(N, N, N / 2 + 1)` — full
along x and y, truncated by conjugate symmetry along z only — and for `N = 8`
its shape is `(8, 8, 5)`. -/
theorem r2c_truncated_shape :
    (∀ N : ℕ, cshape N = (N, N, N / 2 + 1)
        ∧ Fintype.card (CIdx N) = N * N * (N / 2 + 1))
    ∧ cshape 8 = (8, 8, 5) := by
  have h : ∀ N : ℕ, cshape N = (N, N, N / 2 + 1)
      ∧ Fintype.card (CIdx N) = N * N * (N / 2 + 1) := by
    intro N
    constructor
    · simp [cshape]
    · simp only [Fintype.card_prod, Fintype.card_fin]
      ring
  refine ⟨h, ?_⟩
  rw [(h 8).1]

/-- C3: a configuration-space field from a `ParticleMesh` of side `N` is a
real-valued 3D array indexed by `RIdx N`, of shape `(N, N, N)` with `N ^ 3`
cells, and for `N = 8` the `RealField` shape is `(8, 8, 8)`. -/
theorem realField_cube_shape :
    (∀ N : ℕ, rshape N = (N, N, N) ∧ Fintype.card (RIdx N) = N ^ 3)
    ∧ rshape 8 = (8, 8, 8) := by
  have h : ∀ N : ℕ, rshape N = (N, N, N) ∧ Fintype.card (RIdx N) = N ^ 3 :=
    fun N => ⟨by simp [rshape], card_RIdx N⟩
  refine ⟨h, ?_⟩
  rw [(h 8).1]

/-- C8: the `k = 0` element of the Fourier-space field equals the mean of the
configuration-space field it was transformed from; for the unity field on the
`8 ^ 3` mesh, `cfield[0,0,0]` is `1` (that is, `1 + 0j`), matching the real
field's mean of `1`. -/
theorem zero_mode_is_mean :
    (∀ (N : ℕ) [NeZero N] (f : RealFieldT N),
        r2c f (0, 0, 0) = ((fieldMean f : ℝ) : ℂ))
    ∧ r2c (unityField 8) (0, 0, 0) = 1 := by
  refine ⟨fun N _ f => r2c_zero_mode f, ?_⟩
  rw [r2c_zero_mode (unityField 8), fieldMean_unity8]
  norm_num

/-- Witness for the zero-mode theorem at the notebook's concrete mesh size. -/
theorem zero_mode_is_mean_witness :
    r2c (unityField 8) (0, 0, 0) = ((fieldMean (unityField 8) : ℝ) : ℂ) :=
  zero_mode_is_mean.1 8 (unityField 8)

/-- C4: the deploy step uploads the sdist to PyPI exactly when the build is a
git tag build and `TRAVIS_PYTHON_VERSION` equals `2.7`; it never runs when
either gate fails. -/
theorem deploy_gating :
    (∀ ctx : Travis.BuildCtx,
        Travis.deployRuns Travis.deployConfig ctx = true ↔
          ctx.isTagBuild = true ∧ ctx.travisPythonVersion = "2.7")
    ∧ Travis.deployConfig.provider = "pypi"
    ∧ Travis.deployConfig.distributions = "sdist" := by
  refine ⟨fun ctx => ?_, rfl, rfl⟩
  simp [Travis.deployRuns, Travis.deployConfig]

/-- Witness for the deploy gating theorem at a concrete build context. -/
theorem deploy_gating_witness :
    Travis.deployRuns Travis.deployConfig
      { isTagBuild := true, travisPythonVersion := "2.7" } = true :=
  (deploy_gating.1 _).mpr ⟨rfl, rfl⟩

/-- C5: the CI entry point is exactly one test-runner invocation, carrying the
verbosity flag `-v`, distributed execution over 4 MPI processes via
`--mpirun`, and the coverage flag `--with-coverage`. -/
theorem ci_entry_point :
    Travis.script.length = 1
    ∧ Travis.script
        = ["python run-tests.py " ++ Travis.verbosityFlag ++ " "
            ++ Travis.mpirunFlag ++ " " ++ Travis.coverageFlag]
    ∧ Travis.mpirunCommand = "mpirun -n " ++ Travis.mpiProcessCount.repr := by
  refine ⟨rfl, ?_, ?_⟩ <;> decide

/-- C6: the CI install step installs from `requirements.txt` and from
`requirements-extras.txt` as two distinct files, and the dependency manifest
entries are package names with optional pinned versions. -/
theorem dependency_manifests :
    ("conda install --yes --file " ++ Travis.baseRequirementsFile) ∈ Travis.installCmds
    ∧ ("conda install --yes --file " ++ Travis.extrasRequirementsFile) ∈ Travis.installCmds
    ∧ Travis.baseRequirementsFile ≠ Travis.extrasRequirementsFile
    ∧ (Travis.docsCondaDependencies ++ Travis.docsPipDependencies).all
        Travis.isValidDepEntry = true := by
  refine ⟨?_, ?_, ?_, ?_⟩ <;> decide

/-- C7: the repository consists only of CI configuration, environment
manifests and a documentation notebook — no repository-owned implementation or
test of the FFT round trip — and every round-trip demonstration in the
notebook calls the external `pmesh` library, not `nbodykit` code. -/
theorem repo_contents_glue_only :
    Travis.repoFiles.all (fun f => Travis.isGlueKind f.kind) = true
    ∧ Travis.repoFiles.all (fun f => !Travis.isCodeKind f.kind) = true
    ∧ Travis.notebookFFTCalls.all
        (fun c => Travis.moduleIsPmesh c.definingModule
          && !Travis.moduleIsRepoOwned c.definingModule) = true := by
  refine ⟨?_, ?_, ?_⟩ <;> decide

/-- C9: every job of the CI matrix — for each of the three Python versions —
installs numpy 1.15 and appends it to the conda pinned file, so the installed
numpy version remains 1.15 through all subsequent dependency installation. -/
theorem numpy_pin_invariant :
    Travis.buildMatrix.map (fun j => j.travisPythonVersion) = ["2.7", "3.6", "3.7"]
    ∧ (∀ env ∈ Travis.buildMatrix, ∀ n : ℕ, 5 ≤ n → n ≤ 10 →
        (Travis.runSteps Travis.initialState
            ((Travis.installPlan env).take n)).numpyInstalled = some "1.15"
        ∧ (6 ≤ n →
            "numpy 1.15.*" ∈ (Travis.runSteps Travis.initialState
              ((Travis.installPlan env).take n)).pinnedFile)) := by
  refine ⟨by decide, ?_⟩
  intro env henv n h5 h10
  fin_cases henv <;> interval_cases n <;>
    exact ⟨by decide, fun h6 => by first | decide | exact absurd h6 (by omega)⟩

/-- Witness for the numpy pin theorem: the full install sequence of the first
matrix job ends with numpy still at 1.15. -/
theorem numpy_pin_invariant_witness :
    (Travis.runSteps Travis.initialState
        ((Travis.installPlan
            { travisPythonVersion := "2.7", numpyVersionVar := "1.15" }).take 10)).numpyInstalled
      = some "1.15" :=
  (numpy_pin_invariant.2 _ (by decide) 10 (by decide) (by decide)).1

/-- C10: the documentation environment manifest names the environment
`nbodykit-docs` and pins the interpreter to python 3.6, a version distinct
from the 2.7 and 3.7 of the CI test matrix (and equal to its third entry). -/
theorem docs_environment_pin :
    Travis.docsEnvName = "nbodykit-docs"
    ∧ Travis.lookupPin Travis.docsCondaDependencies "python" = some "3.6"
    ∧ "3.6" ∈ Travis.pythonVersions
    ∧ "2.7" ∈ Travis.pythonVersions
    ∧ "3.7" ∈ Travis.pythonVersions
    ∧ ("3.6" : String) ≠ "2.7"
    ∧ ("3.6" : String) ≠ "3.7" := by
  refine ⟨rfl, ?_, ?_, ?_, ?_, ?_, ?_⟩ <;> decide

end Nbodykit
